import Mathlib

/-!
Shallow embedding of the `regreddit` purge engine (src/app.rs, src/client.rs,
src/reddit.rs, src/error.rs, src/settings.rs).

The purge engine (`AppImpl::regreddit` together with `delete_comments` and
`delete_posts`) is embedded as a deterministic interpreter parameterised by a
client model (the `Client` trait: auth, the two listing endpoints, the delete
endpoint, submit).  Network calls and task events are recorded in an explicit
event trace; the concurrent run (`tokio::join!` plus spawned deletion tasks)
is linearised: each spawned task's delete call is placed at its spawn point
and its join (`handle.await`) at the orchestrator's drain loop, matching the
program order of `regreddit`.
-/

namespace Regreddit

/-- `ErrorKind` from src/error.rs. -/
inductive ErrorKind
  | authentication
  | invalidInput
  | network
  | reddit
  | io
deriving DecidableEq, Repr

/-- `Error` from src/error.rs: a kind plus an underlying error, modelled as a
message string (`Repr::Simple` is the empty message). -/
structure Error where
  kind : ErrorKind
  msg : String
deriving DecidableEq, Repr

/-- `Credentials` from src/settings.rs. -/
structure Credentials where
  client_id : String
  secret : String
  username : String
  password : String
deriving DecidableEq, Repr

/-- `Settings` from src/settings.rs.  The `whitelist` field is the exemption
set; `HashSet::from_iter` in `regreddit` makes membership in the `Vec` the
membership test, so a list with `∈` is the faithful model. -/
structure Settings where
  credentials : Credentials
  whitelist : List String
deriving DecidableEq, Repr

/-- `ListingShow` from src/reddit.rs. -/
inductive ListingShow
  | all
deriving DecidableEq, Repr

/-- `ListingControl` from src/reddit.rs (`show` is a Lean keyword, hence
`show_`). -/
structure ListingControl where
  after : Option String
  before : Option String
  limit : Option Nat
  count : Option Nat
  show_ : Option ListingShow
deriving DecidableEq, Repr

/-- `Object` from src/reddit.rs: the union the listing endpoints deserialize
into.  The `comment` variant carries the `subreddit` field required by the
pattern `Object::Comment { name, subreddit, .. }` in `delete_comments`. -/
inductive Object
  | listing (modhash : Option String) (dist : Nat)
      (after : Option String) (before : Option String)
      (children : List Object)
  | comment (link_title : String) (link_id : String)
      (name : String) (subreddit : String)
  | link (subreddit : String) (title : String) (name : String)

/-- `BasicAuthResult` from src/client.rs. -/
structure BasicAuthResult where
  access_token : String
deriving DecidableEq, Repr

/-- `GetCommentsParams` from src/client.rs. -/
structure GetCommentsParams where
  access_token : String
  username : String
  listing_control : ListingControl
deriving DecidableEq, Repr

/-- `GetPostsParams` from src/client.rs. -/
structure GetPostsParams where
  access_token : String
  username : String
  listing_control : ListingControl
deriving DecidableEq, Repr

/-- `DeleteLinkParams` from src/client.rs. -/
structure DeleteLinkParams where
  access_token : String
  id : String
deriving DecidableEq, Repr

/-- `DeleteLinkResult` from src/client.rs. -/
structure DeleteLinkResult where
deriving DecidableEq, Repr

/-- `SelfPostBody` from src/reddit.rs. -/
inductive SelfPostBody
  | text (s : String)
  | richtextJson (s : String)
deriving DecidableEq, Repr

/-- `Post` from src/reddit.rs (the url of a link post is kept as its string). -/
inductive Post
  | link (subreddit : String) (title : String) (url : String)
  | selfPost (subreddit : String) (title : String) (body : SelfPostBody)
deriving DecidableEq, Repr

/-- `SubmitParams` from src/client.rs. -/
structure SubmitParams where
  access_token : String
  post : Post
deriving DecidableEq, Repr

/-- `SubmitResult` from src/client.rs. -/
structure SubmitResult where
deriving DecidableEq, Repr

/-- `RegredditResult` from src/app.rs. -/
structure RegredditResult where
deriving DecidableEq, Repr

/-- `SubmitSelfPostResult` from src/app.rs. -/
structure SubmitSelfPostResult where
deriving DecidableEq, Repr

/-- `SubmitSelfPostParams` from src/app.rs. -/
structure SubmitSelfPostParams where
  credentials : Credentials
  subreddit : String
  title : String
  text : Option String
  text_file : Option String
  richtext_json : Option String
  richtext_json_file : Option String
deriving DecidableEq, Repr

/-- Model of the `Client` trait from src/client.rs, as deterministic
response functions (the external collaborator is a black box). -/
structure ClientModel where
  basicAuth : Credentials → Except Error BasicAuthResult
  getComments : GetCommentsParams → Except Error Object
  getPosts : GetPostsParams → Except Error Object
  deleteLink : DeleteLinkParams → Except Error DeleteLinkResult
  submit : SubmitParams → Except Error SubmitResult

/-- `LISTING_LIMIT` from src/app.rs. -/
def listingLimit : Nat := 50

instance {ε α : Type} [DecidableEq ε] [DecidableEq α] :
    DecidableEq (Except ε α) := fun a b =>
  match a, b with
  | .error x, .error y =>
    if h : x = y then .isTrue (by rw [h])
    else .isFalse (fun he => h (Except.error.inj he))
  | .ok x, .ok y =>
    if h : x = y then .isTrue (by rw [h])
    else .isFalse (fun he => h (Except.ok.inj he))
  | .error _, .ok _ => .isFalse (fun he => Except.noConfusion he)
  | .ok _, .error _ => .isFalse (fun he => Except.noConfusion he)

/-- Observable events of one purge run, in program order. -/
inductive Event
  | auth (ok : Bool)
  | listComments (p : GetCommentsParams)
  | listPosts (p : GetPostsParams)
  | item (name : String) (subreddit : String)
  | exemptSkip (name : String)
  | itemAnomaly
  | streamAnomaly
  | spawn (id : String)
  | deleteCall (p : DeleteLinkParams) (result : Except Error DeleteLinkResult)
  | join (id : String)
  | done
deriving DecidableEq, Repr

/-- How one stream's loop in `delete_comments` / `delete_posts` ended:
normally (`Ok(())` in the source), with a propagated client error (the `?`
on the listing call), or with the interpreter's fuel exhausted. -/
inductive StreamOutcome
  | ok
  | err (e : Error)
  | fuelOut
deriving DecidableEq, Repr

/-- The body of the `for child in &children` loop of
`AppImpl::delete_comments` for one child: a `Comment` child is an item of the
stream; it is skipped when its subreddit is whitelisted and otherwise a
deletion task is spawned (the task immediately performs the delete call and
swallows its outcome); any other child is logged and skipped. -/
def commentsChildEvents (whitelist : List String)
    (deleteLink : DeleteLinkParams → Except Error DeleteLinkResult)
    (access_token : String) : Object → List Event
  | .comment _ _ name subreddit =>
    if subreddit ∈ whitelist then
      [.item name subreddit, .exemptSkip name]
    else
      [.item name subreddit, .spawn name,
       .deleteCall ⟨access_token, name⟩ (deleteLink ⟨access_token, name⟩)]
  | _ => [.itemAnomaly]

/-- The full `for child in &children` loop of `AppImpl::delete_comments`. -/
def commentsPageEvents (whitelist : List String)
    (deleteLink : DeleteLinkParams → Except Error DeleteLinkResult)
    (access_token : String) : List Object → List Event
  | [] => []
  | c :: cs =>
    commentsChildEvents whitelist deleteLink access_token c
      ++ commentsPageEvents whitelist deleteLink access_token cs

/-- The body of the `for post in &children` loop of `AppImpl::delete_posts`
for one child (same shape as the comments loop, but a `Link` child is the
item of this stream). -/
def postsChildEvents (whitelist : List String)
    (deleteLink : DeleteLinkParams → Except Error DeleteLinkResult)
    (access_token : String) : Object → List Event
  | .link subreddit _ name =>
    if subreddit ∈ whitelist then
      [.item name subreddit, .exemptSkip name]
    else
      [.item name subreddit, .spawn name,
       .deleteCall ⟨access_token, name⟩ (deleteLink ⟨access_token, name⟩)]
  | _ => [.itemAnomaly]

/-- The full `for post in &children` loop of `AppImpl::delete_posts`. -/
def postsPageEvents (whitelist : List String)
    (deleteLink : DeleteLinkParams → Except Error DeleteLinkResult)
    (access_token : String) : List Object → List Event
  | [] => []
  | c :: cs =>
    postsChildEvents whitelist deleteLink access_token c
      ++ postsPageEvents whitelist deleteLink access_token cs

/-- The `ListingControl` built in `delete_comments` / `delete_posts`:
`after` is the running cursor, `limit = Some(LISTING_LIMIT)`, everything
else `None`. -/
def mkListingControl (after : Option String) : ListingControl :=
  { after := after, before := none, limit := some listingLimit,
    count := none, show_ := none }

/-- The `GetCommentsParams` built by each iteration of `delete_comments`:
the shared access token, the hard-coded username `"trustyhardware"`, and the
running cursor. -/
def cParams (access_token : String) (after : Option String) :
    GetCommentsParams :=
  ⟨access_token, "trustyhardware", mkListingControl after⟩

/-- The `GetPostsParams` built by each iteration of `delete_posts`. -/
def pParams (access_token : String) (after : Option String) :
    GetPostsParams :=
  ⟨access_token, "trustyhardware", mkListingControl after⟩

/-- The `loop` of `AppImpl::delete_comments`, by fuel.  Each iteration calls
`get_comments` with the hard-coded username `"trustyhardware"`; a non-`Listing`
response is logged and breaks the loop; the children are processed by the
item loop; a page shorter than `LISTING_LIMIT` breaks; otherwise the cursor
advances only when the literal last child is a `Link` (as in the source,
which pattern-matches `Object::Link` here although this stream's items are
`Comment`s), else the loop breaks. -/
def deleteCommentsGo (getComments : GetCommentsParams → Except Error Object)
    (deleteLink : DeleteLinkParams → Except Error DeleteLinkResult)
    (whitelist : List String) (access_token : String) :
    Option String → Nat → List Event × StreamOutcome
  | _, 0 => ([], .fuelOut)
  | after, fuel + 1 =>
    match getComments (cParams access_token after) with
    | .error e => ([.listComments (cParams access_token after)], .err e)
    | .ok (.listing _ _ _ _ children) =>
      if children.length < listingLimit then
        (Event.listComments (cParams access_token after)
          :: commentsPageEvents whitelist deleteLink access_token children,
         .ok)
      else
        match children.getLast? with
        | some (.link _ _ name) =>
          (Event.listComments (cParams access_token after)
            :: commentsPageEvents whitelist deleteLink access_token children
            ++ (deleteCommentsGo getComments deleteLink whitelist
                  access_token (some name) fuel).1,
           (deleteCommentsGo getComments deleteLink whitelist
              access_token (some name) fuel).2)
        | _ =>
          (Event.listComments (cParams access_token after)
            :: commentsPageEvents whitelist deleteLink access_token children,
           .ok)
    | .ok _ =>
      ([.listComments (cParams access_token after), .streamAnomaly], .ok)

/-- The `loop` of `AppImpl::delete_posts`, by fuel (same structure as
`deleteCommentsGo`, over `get_posts` and `Link` items). -/
def deletePostsGo (getPosts : GetPostsParams → Except Error Object)
    (deleteLink : DeleteLinkParams → Except Error DeleteLinkResult)
    (whitelist : List String) (access_token : String) :
    Option String → Nat → List Event × StreamOutcome
  | _, 0 => ([], .fuelOut)
  | after, fuel + 1 =>
    match getPosts (pParams access_token after) with
    | .error e => ([.listPosts (pParams access_token after)], .err e)
    | .ok (.listing _ _ _ _ children) =>
      if children.length < listingLimit then
        (Event.listPosts (pParams access_token after)
          :: postsPageEvents whitelist deleteLink access_token children,
         .ok)
      else
        match children.getLast? with
        | some (.link _ _ name) =>
          (Event.listPosts (pParams access_token after)
            :: postsPageEvents whitelist deleteLink access_token children
            ++ (deletePostsGo getPosts deleteLink whitelist
                  access_token (some name) fuel).1,
           (deletePostsGo getPosts deleteLink whitelist
              access_token (some name) fuel).2)
        | _ =>
          (Event.listPosts (pParams access_token after)
            :: postsPageEvents whitelist deleteLink access_token children,
           .ok)
    | .ok _ =>
      ([.listPosts (pParams access_token after), .streamAnomaly], .ok)

/-- The id announced by a spawn event, if any. -/
def Event.spawnId : Event → Option String
  | .spawn id => some id
  | _ => none

/-- The ids of the deletion tasks spawned in a trace, in dispatch order
(the contents of the `handles` vector of one stream). -/
def spawnedIds (evs : List Event) : List String :=
  evs.filterMap Event.spawnId

/-- `AppImpl::regreddit` from src/app.rs: authenticate (the `?` propagates an
auth failure before anything else happens), run both streams, then await
every comment handle and every post handle in push order, and return
`Ok(RegredditResult {})` unconditionally (the stream results are discarded
by `let (_, _) = join!`). -/
def regredditRun (client : ClientModel) (settings : Settings) (fuel : Nat) :
    Except Error RegredditResult × List Event :=
  match client.basicAuth settings.credentials with
  | .error e => (.error e, [.auth false])
  | .ok res =>
    let access_token := res.access_token
    let whitelist := settings.whitelist
    let c := deleteCommentsGo client.getComments client.deleteLink whitelist
      access_token none fuel
    let q := deletePostsGo client.getPosts client.deleteLink whitelist
      access_token none fuel
    (.ok {},
      .auth true
        :: (c.1 ++ q.1
            ++ (spawnedIds c.1).map .join
            ++ (spawnedIds q.1).map .join
            ++ [.done]))

/-- The common tail of every arm of the `match` in
`AppImpl::submit_self_post`: `self.client.submit(&submit_params).await?`
followed by `Ok(SubmitSelfPostResult {})`.  The second component records the
submit calls made. -/
def doSubmit (client : ClientModel) (sp : SubmitParams) :
    Except Error SubmitSelfPostResult × List SubmitParams :=
  match client.submit sp with
  | .error e => (.error e, [sp])
  | .ok _ => (.ok {}, [sp])

/-- `AppImpl::submit_self_post` from src/app.rs: authenticate first (the `?`
propagates an auth failure), then match on the four body sources; exactly the
four one-source patterns build a submit request (reading a file through
`fs`, whose failure the `?` propagates); every other combination returns an
`InvalidInput` error before any submit call. -/
def submitSelfPost (client : ClientModel) (fs : String → Except Error String)
    (p : SubmitSelfPostParams) :
    Except Error SubmitSelfPostResult × List SubmitParams :=
  match client.basicAuth p.credentials with
  | .error e => (.error e, [])
  | .ok res =>
    let access_token := res.access_token
    match p.text, p.text_file, p.richtext_json, p.richtext_json_file with
    | some t, none, none, none =>
      doSubmit client
        ⟨access_token, .selfPost p.subreddit p.title (.text t)⟩
    | none, some f, none, none =>
      match fs f with
      | .error e => (.error e, [])
      | .ok s =>
        doSubmit client
          ⟨access_token, .selfPost p.subreddit p.title (.text s)⟩
    | none, none, some rt, none =>
      doSubmit client
        ⟨access_token, .selfPost p.subreddit p.title (.richtextJson rt)⟩
    | none, none, none, some f =>
      match fs f with
      | .error e => (.error e, [])
      | .ok s =>
        doSubmit client
          ⟨access_token, .selfPost p.subreddit p.title (.richtextJson s)⟩
    | _, _, _, _ =>
      (.error ⟨.invalidInput, "only one input source is accepted"⟩, [])

/-- The number of body sources provided to `submit_self_post`. -/
def sourceCount (p : SubmitSelfPostParams) : Nat :=
  [p.text, p.text_file, p.richtext_json, p.richtext_json_file].countP
    fun o => o.isSome

/-- The self-post body determined by the single provided source (reading
files through `fs`); mirrors which source each accepting arm of the `match`
in `submit_self_post` uses. -/
def selfPostBodyOfSources (fs : String → Except Error String)
    (p : SubmitSelfPostParams) : Except Error SelfPostBody :=
  match p.text, p.text_file, p.richtext_json, p.richtext_json_file with
  | some t, _, _, _ => .ok (.text t)
  | _, some f, _, _ => (fs f).map .text
  | _, _, some rt, _ => .ok (.richtextJson rt)
  | _, _, _, some f => (fs f).map .richtextJson
  | _, _, _, _ => .error ⟨.invalidInput, "only one input source is accepted"⟩

/-- Whether an event is a listing (`listPage`) call. -/
def Event.isListCall : Event → Bool
  | .listComments _ => true
  | .listPosts _ => true
  | _ => false

/-- Whether an event is a delete call. -/
def Event.isDeleteCall : Event → Bool
  | .deleteCall _ _ => true
  | _ => false

/-- The name announced by an item event, if any. -/
def Event.itemName : Event → Option String
  | .item name _ => some name
  | _ => none

/-- Whether an `Object` is the `Listing` variant. -/
def Object.isListing : Object → Bool
  | .listing _ _ _ _ _ => true
  | _ => false

/-- Whether an `Object` is the `Comment` variant. -/
def Object.isComment : Object → Bool
  | .comment _ _ _ _ => true
  | _ => false

/-- Whether an `Object` is the `Link` variant. -/
def Object.isLink : Object → Bool
  | .link _ _ _ => true
  | _ => false

/-- Rewrites the recorded outcome of every delete call in a trace to the one
an alternative delete endpoint `dl` would give, leaving every other event
unchanged. -/
def substOutcome (dl : DeleteLinkParams → Except Error DeleteLinkResult) :
    Event → Event
  | .deleteCall p _ => .deleteCall p (dl p)
  | e => e

/-- The listing-call cursors (`after` values) of a trace, in call order. -/
def listCommentsCursors (evs : List Event) : List (Option String) :=
  evs.filterMap fun e =>
    match e with
    | .listComments p => some p.listing_control.after
    | _ => none

/-- The names of the items a trace produced, in order. -/
def itemNames (evs : List Event) : List String :=
  evs.filterMap Event.itemName

/-! ### Concrete inputs used to exercise the theorems -/

def sampleCredentials : Credentials :=
  ⟨"client-id", "client-secret", "alice", "hunter2"⟩

def sampleSettings : Settings :=
  ⟨sampleCredentials, ["keep"]⟩

def okDelete : DeleteLinkParams → Except Error DeleteLinkResult :=
  fun _ => .ok {}

def failDelete : DeleteLinkParams → Except Error DeleteLinkResult :=
  fun _ => .error ⟨.reddit, "refused"⟩

def emptyListing : Object := .listing none 0 none none []

/-- A client whose authentication always fails. -/
def authFailClient : ClientModel :=
  { basicAuth := fun _ => .error ⟨.authentication, "bad credentials"⟩
    getComments := fun _ => .ok emptyListing
    getPosts := fun _ => .ok emptyListing
    deleteLink := okDelete
    submit := fun _ => .ok {} }

/-- A client with one short comments page (one exempt item `c1` in subreddit
`keep`, one deletable item `c2`) and one short posts page (one deletable
item `p1`). -/
def sampleClient : ClientModel :=
  { basicAuth := fun _ => .ok ⟨"tok"⟩
    getComments := fun _ => .ok (.listing none 2 none none
      [.comment "t1" "l1" "c1" "keep", .comment "t2" "l2" "c2" "aaa"])
    getPosts := fun _ => .ok (.listing none 1 none none
      [.link "bbb" "a post" "p1"])
    deleteLink := okDelete
    submit := fun _ => .ok {} }

def commentName (i : Nat) : String := "c" ++ Nat.repr i

/-- A full page of `LISTING_LIMIT` decodable comments `c0 .. c49`. -/
def fullCommentsChildren : List Object :=
  (List.range listingLimit).map fun i =>
    .comment "t" "l" (commentName i) "sub"

def tailCommentsChildren : List Object :=
  (List.range 3).map fun i => .comment "t" "l" ("d" ++ Nat.repr i) "sub"

/-- A comments server holding 53 comments: a full first page and a short
second page behind any cursor. -/
def twoPageCommentsServer : GetCommentsParams → Except Error Object :=
  fun p =>
    match p.listing_control.after with
    | none => .ok (.listing none listingLimit none none fullCommentsChildren)
    | some _ => .ok (.listing none 3 none none tailCommentsChildren)

def postName (i : Nat) : String := "p" ++ Nat.repr i

/-- A full page of `LISTING_LIMIT` decodable posts `p0 .. p49`. -/
def fullPostsChildren : List Object :=
  (List.range listingLimit).map fun i =>
    .link "sub" "a post" (postName i)

/-- A client whose posts listing returns a full first page and then a
malformed (non-`Listing`) response behind any cursor. -/
def anomalyPostsClient : ClientModel :=
  { basicAuth := fun _ => .ok ⟨"tok"⟩
    getComments := fun _ => .ok emptyListing
    getPosts := fun p =>
      match p.listing_control.after with
      | none => .ok (.listing none listingLimit none none fullPostsChildren)
      | some _ => .ok (.comment "t" "l" "weird" "sub")
    deleteLink := okDelete
    submit := fun _ => .ok {} }

def emptyFs : String → Except Error String :=
  fun _ => .error ⟨.io, "no such file"⟩

/-- `submit_self_post` input with zero body sources. -/
def noSourceParams : SubmitSelfPostParams :=
  ⟨sampleCredentials, "rust", "a title", none, none, none, none⟩

/-- `submit_self_post` input with exactly one body source (`text`). -/
def oneSourceParams : SubmitSelfPostParams :=
  ⟨sampleCredentials, "rust", "a title", some "hello", none, none, none⟩

/-! ### General list helpers -/

lemma mem_filterMap_of_mem {α β : Type} {f : α → Option β} {l : List α}
    {a : α} {b : β} (ha : a ∈ l) (hb : f a = some b) : b ∈ l.filterMap f :=
  List.mem_filterMap.mpr ⟨a, ha, hb⟩

lemma filterMap_nodup_inj {α β : Type} {f : α → Option β} :
    ∀ {l : List α}, (l.filterMap f).Nodup →
      ∀ {a b : α} {n : β}, a ∈ l → b ∈ l → f a = some n → f b = some n →
        a = b := by
  intro l
  induction l with
  | nil => intro _ a b n ha; simp at ha
  | cons x xs ih =>
    intro hnd a b n ha hb hfa hfb
    rcases hx : f x with _ | y
    · rw [List.filterMap_cons_none hx] at hnd
      rcases List.mem_cons.mp ha with rfl | ha'
      · rw [hfa] at hx; exact absurd hx (by simp)
      rcases List.mem_cons.mp hb with rfl | hb'
      · rw [hfb] at hx; exact absurd hx (by simp)
      exact ih hnd ha' hb' hfa hfb
    · rw [List.filterMap_cons_some hx] at hnd
      rcases List.mem_cons.mp ha with rfl | ha' <;>
        rcases List.mem_cons.mp hb with rfl | hb'
      · rfl
      · exfalso
        rw [hfa] at hx
        exact (List.nodup_cons.mp hnd).1
          (mem_filterMap_of_mem hb' (hfb.trans (Option.some_inj.mpr
            (Option.some_inj.mp hx))))
      · exfalso
        rw [hfb] at hx
        exact (List.nodup_cons.mp hnd).1
          (mem_filterMap_of_mem ha' (hfa.trans (Option.some_inj.mpr
            (Option.some_inj.mp hx))))
      · exact ih (List.nodup_cons.mp hnd).2 ha' hb' hfa hfb

/-! ### Page-level lemmas, comments stream -/

lemma commentsPageEvents_append (wl : List String)
    (dl : DeleteLinkParams → Except Error DeleteLinkResult) (tok : String) :
    ∀ xs ys : List Object,
      commentsPageEvents wl dl tok (xs ++ ys)
        = commentsPageEvents wl dl tok xs ++ commentsPageEvents wl dl tok ys := by
  intro xs ys
  induction xs with
  | nil => simp [commentsPageEvents]
  | cons c cs ih => simp [commentsPageEvents, ih]

lemma commentsPage_no_listCalls (wl : List String)
    (dl : DeleteLinkParams → Except Error DeleteLinkResult) (tok : String) :
    ∀ (children : List Object) (e : Event),
      e ∈ commentsPageEvents wl dl tok children → e.isListCall = false := by
  intro children
  induction children with
  | nil => intro e he; simp [commentsPageEvents] at he
  | cons c cs ih =>
    intro e he
    rw [commentsPageEvents, List.mem_append] at he
    rcases he with he | he
    · cases c with
      | comment lt li nm sub =>
        by_cases hsub : sub ∈ wl
        · simp [commentsChildEvents, hsub] at he
          rcases he with rfl | rfl <;> rfl
        · simp [commentsChildEvents, hsub] at he
          rcases he with rfl | rfl | rfl <;> rfl
      | listing mh d a b ch =>
        simp [commentsChildEvents] at he; subst he; rfl
      | link s t nm =>
        simp [commentsChildEvents] at he; subst he; rfl
    · exact ih e he

lemma commentsPage_spawn_iff (wl : List String)
    (dl : DeleteLinkParams → Except Error DeleteLinkResult) (tok : String) :
    ∀ (children : List Object) (name : String),
      Event.spawn name ∈ commentsPageEvents wl dl tok children ↔
        ∃ sub, Event.item name sub ∈ commentsPageEvents wl dl tok children
          ∧ sub ∉ wl := by
  intro children
  induction children with
  | nil => intro name; simp [commentsPageEvents]
  | cons c cs ih =>
    intro name
    rw [commentsPageEvents]
    cases c with
    | comment lt li nm sub =>
      by_cases hsub : sub ∈ wl
      · simp only [commentsChildEvents, if_pos hsub, List.cons_append,
          List.mem_cons, List.mem_append, List.nil_append]
        simp [ih name, hsub]
        constructor
        · rintro ⟨s, hs, hns⟩
          exact ⟨s, Or.inr hs, hns⟩
        · rintro ⟨s, ⟨rfl, rfl⟩ | hs, hns⟩
          · exact absurd hsub hns
          · exact ⟨s, hs, hns⟩
      · simp only [commentsChildEvents, if_neg hsub, List.cons_append,
          List.mem_cons, List.nil_append]
        simp [ih name, hsub]
        constructor
        · rintro (rfl | ⟨s, hs, hns⟩)
          · exact ⟨sub, Or.inl ⟨rfl, rfl⟩, hsub⟩
          · exact ⟨s, Or.inr hs, hns⟩
        · rintro ⟨s, ⟨rfl, rfl⟩ | hs, hns⟩
          · exact Or.inl rfl
          · exact Or.inr ⟨s, hs, hns⟩
    | listing mh d a b ch =>
      simp [commentsChildEvents, ih name]
    | link s t nm =>
      simp [commentsChildEvents, ih name]

lemma commentsPage_deleteCall_spawn (wl : List String)
    (dl : DeleteLinkParams → Except Error DeleteLinkResult) (tok : String) :
    ∀ (children : List Object) (q : DeleteLinkParams)
      (r : Except Error DeleteLinkResult),
      Event.deleteCall q r ∈ commentsPageEvents wl dl tok children →
        Event.spawn q.id ∈ commentsPageEvents wl dl tok children := by
  intro children
  induction children with
  | nil => intro q r h; simp [commentsPageEvents] at h
  | cons c cs ih =>
    intro q r h
    rw [commentsPageEvents, List.mem_append] at h
    rw [commentsPageEvents, List.mem_append]
    rcases h with h | h
    · cases c with
      | comment lt li nm sub =>
        by_cases hsub : sub ∈ wl
        · simp [commentsChildEvents, hsub] at h
        · simp [commentsChildEvents, hsub] at h
          rcases h with ⟨rfl, -⟩
          left
          simp [commentsChildEvents, hsub]
      | listing mh d a b ch => simp [commentsChildEvents] at h
      | link s t nm => simp [commentsChildEvents] at h
    · exact Or.inr (ih q r h)

lemma commentsPage_map_substOutcome (wl : List String)
    (dl dl' : DeleteLinkParams → Except Error DeleteLinkResult)
    (tok : String) :
    ∀ children : List Object,
      commentsPageEvents wl dl' tok children
        = (commentsPageEvents wl dl tok children).map (substOutcome dl') := by
  intro children
  induction children with
  | nil => simp [commentsPageEvents]
  | cons c cs ih =>
    rw [commentsPageEvents, commentsPageEvents, List.map_append, ← ih]
    congr 1
    cases c with
    | comment lt li nm sub =>
      by_cases hsub : sub ∈ wl <;>
        simp [commentsChildEvents, hsub, substOutcome]
    | listing mh d a b ch => simp [commentsChildEvents, substOutcome]
    | link s t nm => simp [commentsChildEvents, substOutcome]

/-! ### Page-level lemmas, posts stream -/

lemma postsPageEvents_append (wl : List String)
    (dl : DeleteLinkParams → Except Error DeleteLinkResult) (tok : String) :
    ∀ xs ys : List Object,
      postsPageEvents wl dl tok (xs ++ ys)
        = postsPageEvents wl dl tok xs ++ postsPageEvents wl dl tok ys := by
  intro xs ys
  induction xs with
  | nil => simp [postsPageEvents]
  | cons c cs ih => simp [postsPageEvents, ih]

lemma postsPage_no_listCalls (wl : List String)
    (dl : DeleteLinkParams → Except Error DeleteLinkResult) (tok : String) :
    ∀ (children : List Object) (e : Event),
      e ∈ postsPageEvents wl dl tok children → e.isListCall = false := by
  intro children
  induction children with
  | nil => intro e he; simp [postsPageEvents] at he
  | cons c cs ih =>
    intro e he
    rw [postsPageEvents, List.mem_append] at he
    rcases he with he | he
    · cases c with
      | link sub t nm =>
        by_cases hsub : sub ∈ wl
        · simp [postsChildEvents, hsub] at he
          rcases he with rfl | rfl <;> rfl
        · simp [postsChildEvents, hsub] at he
          rcases he with rfl | rfl | rfl <;> rfl
      | listing mh d a b ch =>
        simp [postsChildEvents] at he; subst he; rfl
      | comment lt li nm sub =>
        simp [postsChildEvents] at he; subst he; rfl
    · exact ih e he

lemma postsPage_spawn_iff (wl : List String)
    (dl : DeleteLinkParams → Except Error DeleteLinkResult) (tok : String) :
    ∀ (children : List Object) (name : String),
      Event.spawn name ∈ postsPageEvents wl dl tok children ↔
        ∃ sub, Event.item name sub ∈ postsPageEvents wl dl tok children
          ∧ sub ∉ wl := by
  intro children
  induction children with
  | nil => intro name; simp [postsPageEvents]
  | cons c cs ih =>
    intro name
    rw [postsPageEvents]
    cases c with
    | link sub t nm =>
      by_cases hsub : sub ∈ wl
      · simp only [postsChildEvents, if_pos hsub, List.cons_append,
          List.mem_cons, List.mem_append, List.nil_append]
        simp [ih name, hsub]
        constructor
        · rintro ⟨s, hs, hns⟩
          exact ⟨s, Or.inr hs, hns⟩
        · rintro ⟨s, ⟨rfl, rfl⟩ | hs, hns⟩
          · exact absurd hsub hns
          · exact ⟨s, hs, hns⟩
      · simp only [postsChildEvents, if_neg hsub, List.cons_append,
          List.mem_cons, List.nil_append]
        simp [ih name, hsub]
        constructor
        · rintro (rfl | ⟨s, hs, hns⟩)
          · exact ⟨sub, Or.inl ⟨rfl, rfl⟩, hsub⟩
          · exact ⟨s, Or.inr hs, hns⟩
        · rintro ⟨s, ⟨rfl, rfl⟩ | hs, hns⟩
          · exact Or.inl rfl
          · exact Or.inr ⟨s, hs, hns⟩
    | listing mh d a b ch =>
      simp [postsChildEvents, ih name]
    | comment lt li nm sub =>
      simp [postsChildEvents, ih name]

lemma postsPage_deleteCall_spawn (wl : List String)
    (dl : DeleteLinkParams → Except Error DeleteLinkResult) (tok : String) :
    ∀ (children : List Object) (q : DeleteLinkParams)
      (r : Except Error DeleteLinkResult),
      Event.deleteCall q r ∈ postsPageEvents wl dl tok children →
        Event.spawn q.id ∈ postsPageEvents wl dl tok children := by
  intro children
  induction children with
  | nil => intro q r h; simp [postsPageEvents] at h
  | cons c cs ih =>
    intro q r h
    rw [postsPageEvents, List.mem_append] at h
    rw [postsPageEvents, List.mem_append]
    rcases h with h | h
    · cases c with
      | link sub t nm =>
        by_cases hsub : sub ∈ wl
        · simp [postsChildEvents, hsub] at h
        · simp [postsChildEvents, hsub] at h
          rcases h with ⟨rfl, -⟩
          left
          simp [postsChildEvents, hsub]
      | listing mh d a b ch => simp [postsChildEvents] at h
      | comment lt li nm sub => simp [postsChildEvents] at h
    · exact Or.inr (ih q r h)

lemma postsPage_map_substOutcome (wl : List String)
    (dl dl' : DeleteLinkParams → Except Error DeleteLinkResult)
    (tok : String) :
    ∀ children : List Object,
      postsPageEvents wl dl' tok children
        = (postsPageEvents wl dl tok children).map (substOutcome dl') := by
  intro children
  induction children with
  | nil => simp [postsPageEvents]
  | cons c cs ih =>
    rw [postsPageEvents, postsPageEvents, List.map_append, ← ih]
    congr 1
    cases c with
    | link sub t nm =>
      by_cases hsub : sub ∈ wl <;>
        simp [postsChildEvents, hsub, substOutcome]
    | listing mh d a b ch => simp [postsChildEvents, substOutcome]
    | comment lt li nm sub => simp [postsChildEvents, substOutcome]

/-! ### Stream-level lemmas, comments stream -/

lemma deleteCommentsGo_spawn_iff (g : GetCommentsParams → Except Error Object)
    (dl : DeleteLinkParams → Except Error DeleteLinkResult)
    (wl : List String) (tok : String) :
    ∀ (fuel : Nat) (after : Option String) (name : String),
      Event.spawn name ∈ (deleteCommentsGo g dl wl tok after fuel).1 ↔
        ∃ sub,
          Event.item name sub ∈ (deleteCommentsGo g dl wl tok after fuel).1
            ∧ sub ∉ wl := by
  intro fuel
  induction fuel with
  | zero => intro after name; simp [deleteCommentsGo]
  | succ n ih =>
    intro after name
    simp only [deleteCommentsGo]
    split
    next e heq => simp
    next mh d a b children heq =>
      by_cases hlen : children.length < listingLimit
      · simp only [if_pos hlen]
        simp [commentsPage_spawn_iff wl dl tok children name]
      · simp only [if_neg hlen]
        split
        next s t nm heq2 =>
          simp only [List.cons_append, List.mem_cons, List.mem_append]
          simp [commentsPage_spawn_iff wl dl tok children name, ih]
          constructor
          · rintro (⟨s, h, hn⟩ | ⟨s, h, hn⟩)
            exacts [⟨s, Or.inl h, hn⟩, ⟨s, Or.inr h, hn⟩]
          · rintro ⟨s, h | h, hn⟩
            exacts [Or.inl ⟨s, h, hn⟩, Or.inr ⟨s, h, hn⟩]
        all_goals simp [commentsPage_spawn_iff wl dl tok children name]
    all_goals simp

lemma not_list_of_isListCall_false {e : Event} (h : e.isListCall = false) :
    (∀ q, e ≠ Event.listPosts q) ∧ (∀ p, e ≠ Event.listComments p) := by
  constructor <;> rintro x rfl <;> simp [Event.isListCall] at h

lemma deleteCommentsGo_listCalls (g : GetCommentsParams → Except Error Object)
    (dl : DeleteLinkParams → Except Error DeleteLinkResult)
    (wl : List String) (tok : String) :
    ∀ (fuel : Nat) (after : Option String) (e : Event),
      e ∈ (deleteCommentsGo g dl wl tok after fuel).1 →
        (∀ q, e ≠ Event.listPosts q) ∧
        (∀ p, e = Event.listComments p → p.username = "trustyhardware") := by
  intro fuel
  induction fuel with
  | zero => intro after e h; simp [deleteCommentsGo] at h
  | succ n ih =>
    intro after e h
    simp only [deleteCommentsGo] at h
    split at h
    next er heq =>
      simp at h
      subst h
      exact ⟨fun q hq => Event.noConfusion hq,
        fun p hp => by cases hp; rfl⟩
    next mh d a b children heq =>
      by_cases hlen : children.length < listingLimit
      · rw [if_pos hlen] at h
        rcases List.mem_cons.mp h with rfl | h
        · exact ⟨fun q hq => Event.noConfusion hq,
            fun p hp => by cases hp; rfl⟩
        · have := not_list_of_isListCall_false
            (commentsPage_no_listCalls wl dl tok children e h)
          exact ⟨this.1, fun p hp => absurd hp (this.2 p)⟩
      · rw [if_neg hlen] at h
        split at h
        next s t nm heq2 =>
          rcases List.mem_cons.mp h with rfl | h
          · exact ⟨fun q hq => Event.noConfusion hq,
              fun p hp => by cases hp; rfl⟩
          rcases List.mem_append.mp h with h | h
          · have := not_list_of_isListCall_false
              (commentsPage_no_listCalls wl dl tok children e h)
            exact ⟨this.1, fun p hp => absurd hp (this.2 p)⟩
          · exact ih (some nm) e h
        all_goals
          rcases List.mem_cons.mp h with rfl | h
          · exact ⟨fun q hq => Event.noConfusion hq,
              fun p hp => by cases hp; rfl⟩
          · have := not_list_of_isListCall_false
              (commentsPage_no_listCalls wl dl tok children e h)
            exact ⟨this.1, fun p hp => absurd hp (this.2 p)⟩
    all_goals
      simp at h
      rcases h with rfl | rfl
      · exact ⟨fun q hq => Event.noConfusion hq,
          fun p hp => by cases hp; rfl⟩
      · exact ⟨fun q hq => Event.noConfusion hq,
          fun p hp => Event.noConfusion hp⟩

lemma deleteCommentsGo_deleteCall_spawn
    (g : GetCommentsParams → Except Error Object)
    (dl : DeleteLinkParams → Except Error DeleteLinkResult)
    (wl : List String) (tok : String) :
    ∀ (fuel : Nat) (after : Option String) (q : DeleteLinkParams)
      (r : Except Error DeleteLinkResult),
      Event.deleteCall q r ∈ (deleteCommentsGo g dl wl tok after fuel).1 →
        Event.spawn q.id ∈ (deleteCommentsGo g dl wl tok after fuel).1 := by
  intro fuel
  induction fuel with
  | zero => intro after q r h; simp [deleteCommentsGo] at h
  | succ n ih =>
    intro after q r h
    simp only [deleteCommentsGo] at h ⊢
    split at h <;> rename_i heq
    · simp at h
    · rename_i mh d a b children
      by_cases hlen : children.length < listingLimit
      · rw [if_pos hlen] at h ⊢
        rcases List.mem_cons.mp h with h | h
        · exact absurd h (by simp)
        · exact List.mem_cons_of_mem _
            (commentsPage_deleteCall_spawn wl dl tok children q r h)
      · rw [if_neg hlen] at h ⊢
        split at h <;> rename_i heq2
        · rename_i s t nm
          rcases List.mem_cons.mp h with h | h
          · exact absurd h (by simp)
          rcases List.mem_append.mp h with h | h
          · exact List.mem_cons_of_mem _ (List.mem_append_left _
              (commentsPage_deleteCall_spawn wl dl tok children q r h))
          · exact List.mem_cons_of_mem _ (List.mem_append_right _
              (ih (some nm) q r h))
        · rcases List.mem_cons.mp h with h | h
          · exact absurd h (by simp)
          · exact List.mem_cons_of_mem _
              (commentsPage_deleteCall_spawn wl dl tok children q r h)
    · simp at h

lemma deleteCommentsGo_substOutcome
    (g : GetCommentsParams → Except Error Object)
    (dl dl' : DeleteLinkParams → Except Error DeleteLinkResult)
    (wl : List String) (tok : String) :
    ∀ (fuel : Nat) (after : Option String),
      deleteCommentsGo g dl' wl tok after fuel
        = (((deleteCommentsGo g dl wl tok after fuel).1).map (substOutcome dl'),
           (deleteCommentsGo g dl wl tok after fuel).2) := by
  intro fuel
  induction fuel with
  | zero => intro after; simp [deleteCommentsGo]
  | succ n ih =>
    intro after
    rcases heq : g (cParams tok after) with er | obj
    · simp only [deleteCommentsGo, heq]
      simp [substOutcome]
    · cases obj with
      | listing mh d a b children =>
        simp only [deleteCommentsGo, heq]
        by_cases hlen : children.length < listingLimit
        · simp only [if_pos hlen]
          simp [substOutcome,
            commentsPage_map_substOutcome wl dl dl' tok children]
        · simp only [if_neg hlen]
          rcases hl : children.getLast? with _ | o
          · simp [substOutcome,
              commentsPage_map_substOutcome wl dl dl' tok children]
          · cases o with
            | link s t nm =>
              simp only [ih (some nm)]
              simp [substOutcome,
                commentsPage_map_substOutcome wl dl dl' tok children]
            | listing mh2 d2 a2 b2 ch2 =>
              simp [substOutcome,
                commentsPage_map_substOutcome wl dl dl' tok children]
            | comment lt li nm sub =>
              simp [substOutcome,
                commentsPage_map_substOutcome wl dl dl' tok children]
      | comment lt li nm sub =>
        simp only [deleteCommentsGo, heq]
        simp [substOutcome]
      | link s t nm =>
        simp only [deleteCommentsGo, heq]
        simp [substOutcome]

/-! ### Stream-level lemmas, posts stream -/

lemma deletePostsGo_spawn_iff (g : GetPostsParams → Except Error Object)
    (dl : DeleteLinkParams → Except Error DeleteLinkResult)
    (wl : List String) (tok : String) :
    ∀ (fuel : Nat) (after : Option String) (name : String),
      Event.spawn name ∈ (deletePostsGo g dl wl tok after fuel).1 ↔
        ∃ sub,
          Event.item name sub ∈ (deletePostsGo g dl wl tok after fuel).1
            ∧ sub ∉ wl := by
  intro fuel
  induction fuel with
  | zero => intro after name; simp [deletePostsGo]
  | succ n ih =>
    intro after name
    simp only [deletePostsGo]
    split
    next e heq => simp
    next mh d a b children heq =>
      by_cases hlen : children.length < listingLimit
      · simp only [if_pos hlen]
        simp [postsPage_spawn_iff wl dl tok children name]
      · simp only [if_neg hlen]
        split
        next s t nm heq2 =>
          simp only [List.cons_append, List.mem_cons, List.mem_append]
          simp [postsPage_spawn_iff wl dl tok children name, ih]
          constructor
          · rintro (⟨s, h, hn⟩ | ⟨s, h, hn⟩)
            exacts [⟨s, Or.inl h, hn⟩, ⟨s, Or.inr h, hn⟩]
          · rintro ⟨s, h | h, hn⟩
            exacts [Or.inl ⟨s, h, hn⟩, Or.inr ⟨s, h, hn⟩]
        all_goals simp [postsPage_spawn_iff wl dl tok children name]
    all_goals simp

lemma deletePostsGo_listCalls (g : GetPostsParams → Except Error Object)
    (dl : DeleteLinkParams → Except Error DeleteLinkResult)
    (wl : List String) (tok : String) :
    ∀ (fuel : Nat) (after : Option String) (e : Event),
      e ∈ (deletePostsGo g dl wl tok after fuel).1 →
        (∀ q, e ≠ Event.listComments q) ∧
        (∀ p, e = Event.listPosts p → p.username = "trustyhardware") := by
  intro fuel
  induction fuel with
  | zero => intro after e h; simp [deletePostsGo] at h
  | succ n ih =>
    intro after e h
    simp only [deletePostsGo] at h
    split at h
    next er heq =>
      simp at h
      subst h
      exact ⟨fun q hq => Event.noConfusion hq,
        fun p hp => by cases hp; rfl⟩
    next mh d a b children heq =>
      by_cases hlen : children.length < listingLimit
      · rw [if_pos hlen] at h
        rcases List.mem_cons.mp h with rfl | h
        · exact ⟨fun q hq => Event.noConfusion hq,
            fun p hp => by cases hp; rfl⟩
        · have := not_list_of_isListCall_false
            (postsPage_no_listCalls wl dl tok children e h)
          exact ⟨this.2, fun p hp => absurd hp (this.1 p)⟩
      · rw [if_neg hlen] at h
        split at h
        next s t nm heq2 =>
          rcases List.mem_cons.mp h with rfl | h
          · exact ⟨fun q hq => Event.noConfusion hq,
              fun p hp => by cases hp; rfl⟩
          rcases List.mem_append.mp h with h | h
          · have := not_list_of_isListCall_false
              (postsPage_no_listCalls wl dl tok children e h)
            exact ⟨this.2, fun p hp => absurd hp (this.1 p)⟩
          · exact ih (some nm) e h
        all_goals
          rcases List.mem_cons.mp h with rfl | h
          · exact ⟨fun q hq => Event.noConfusion hq,
              fun p hp => by cases hp; rfl⟩
          · have := not_list_of_isListCall_false
              (postsPage_no_listCalls wl dl tok children e h)
            exact ⟨this.2, fun p hp => absurd hp (this.1 p)⟩
    all_goals
      simp at h
      rcases h with rfl | rfl
      · exact ⟨fun q hq => Event.noConfusion hq,
          fun p hp => by cases hp; rfl⟩
      · exact ⟨fun q hq => Event.noConfusion hq,
          fun p hp => Event.noConfusion hp⟩

lemma deletePostsGo_deleteCall_spawn
    (g : GetPostsParams → Except Error Object)
    (dl : DeleteLinkParams → Except Error DeleteLinkResult)
    (wl : List String) (tok : String) :
    ∀ (fuel : Nat) (after : Option String) (q : DeleteLinkParams)
      (r : Except Error DeleteLinkResult),
      Event.deleteCall q r ∈ (deletePostsGo g dl wl tok after fuel).1 →
        Event.spawn q.id ∈ (deletePostsGo g dl wl tok after fuel).1 := by
  intro fuel
  induction fuel with
  | zero => intro after q r h; simp [deletePostsGo] at h
  | succ n ih =>
    intro after q r h
    simp only [deletePostsGo] at h ⊢
    split at h <;> rename_i heq
    · simp at h
    · rename_i mh d a b children
      by_cases hlen : children.length < listingLimit
      · rw [if_pos hlen] at h ⊢
        rcases List.mem_cons.mp h with h | h
        · exact absurd h (by simp)
        · exact List.mem_cons_of_mem _
            (postsPage_deleteCall_spawn wl dl tok children q r h)
      · rw [if_neg hlen] at h ⊢
        split at h <;> rename_i heq2
        · rename_i s t nm
          rcases List.mem_cons.mp h with h | h
          · exact absurd h (by simp)
          rcases List.mem_append.mp h with h | h
          · exact List.mem_cons_of_mem _ (List.mem_append_left _
              (postsPage_deleteCall_spawn wl dl tok children q r h))
          · exact List.mem_cons_of_mem _ (List.mem_append_right _
              (ih (some nm) q r h))
        · rcases List.mem_cons.mp h with h | h
          · exact absurd h (by simp)
          · exact List.mem_cons_of_mem _
              (postsPage_deleteCall_spawn wl dl tok children q r h)
    · simp at h

lemma deletePostsGo_substOutcome
    (g : GetPostsParams → Except Error Object)
    (dl dl' : DeleteLinkParams → Except Error DeleteLinkResult)
    (wl : List String) (tok : String) :
    ∀ (fuel : Nat) (after : Option String),
      deletePostsGo g dl' wl tok after fuel
        = (((deletePostsGo g dl wl tok after fuel).1).map (substOutcome dl'),
           (deletePostsGo g dl wl tok after fuel).2) := by
  intro fuel
  induction fuel with
  | zero => intro after; simp [deletePostsGo]
  | succ n ih =>
    intro after
    rcases heq : g (pParams tok after) with er | obj
    · simp only [deletePostsGo, heq]
      simp [substOutcome]
    · cases obj with
      | listing mh d a b children =>
        simp only [deletePostsGo, heq]
        by_cases hlen : children.length < listingLimit
        · simp only [if_pos hlen]
          simp [substOutcome,
            postsPage_map_substOutcome wl dl dl' tok children]
        · simp only [if_neg hlen]
          rcases hl : children.getLast? with _ | o
          · simp [substOutcome,
              postsPage_map_substOutcome wl dl dl' tok children]
          · cases o with
            | link s t nm =>
              simp only [ih (some nm)]
              simp [substOutcome,
                postsPage_map_substOutcome wl dl dl' tok children]
            | listing mh2 d2 a2 b2 ch2 =>
              simp [substOutcome,
                postsPage_map_substOutcome wl dl dl' tok children]
            | comment lt li nm sub =>
              simp [substOutcome,
                postsPage_map_substOutcome wl dl dl' tok children]
      | comment lt li nm sub =>
        simp only [deletePostsGo, heq]
        simp [substOutcome]
      | link s t nm =>
        simp only [deletePostsGo, heq]
        simp [substOutcome]

/-! ### Run-level helpers -/

lemma spawn_mem_iff_spawnedIds {evs : List Event} {id : String} :
    Event.spawn id ∈ evs ↔ id ∈ spawnedIds evs := by
  rw [spawnedIds, List.mem_filterMap]
  constructor
  · intro h
    exact ⟨.spawn id, h, rfl⟩
  · rintro ⟨e, he, hm⟩
    cases e <;> simp [Event.spawnId] at hm
    subst hm
    exact he

lemma spawnId_substOutcome
    (dl : DeleteLinkParams → Except Error DeleteLinkResult) (e : Event) :
    (substOutcome dl e).spawnId = e.spawnId := by
  cases e <;> rfl

lemma spawnedIds_map_substOutcome
    (dl : DeleteLinkParams → Except Error DeleteLinkResult)
    (l : List Event) :
    spawnedIds (l.map (substOutcome dl)) = spawnedIds l := by
  rw [spawnedIds, spawnedIds, List.filterMap_map]
  congr 1
  funext e
  exact spawnId_substOutcome dl e

lemma substOutcome_comp_join
    (dl : DeleteLinkParams → Except Error DeleteLinkResult) :
    substOutcome dl ∘ Event.join = Event.join :=
  funext fun _ => rfl

lemma map_substOutcome_join
    (dl : DeleteLinkParams → Except Error DeleteLinkResult)
    (l : List String) :
    (l.map Event.join).map (substOutcome dl) = l.map Event.join := by
  rw [List.map_map]
  rfl

lemma regredditRun_fst_ok (client : ClientModel) (settings : Settings)
    (fuel : Nat) (r : BasicAuthResult)
    (h : client.basicAuth settings.credentials = .ok r) :
    (regredditRun client settings fuel).1 = .ok {} := by
  simp [regredditRun, h]

lemma regredditRun_snd (client : ClientModel) (settings : Settings)
    (fuel : Nat) (r : BasicAuthResult)
    (h : client.basicAuth settings.credentials = .ok r) :
    (regredditRun client settings fuel).2
      = Event.auth true
        :: ((deleteCommentsGo client.getComments client.deleteLink
              settings.whitelist r.access_token none fuel).1
          ++ ((deletePostsGo client.getPosts client.deleteLink
                settings.whitelist r.access_token none fuel).1
            ++ ((spawnedIds (deleteCommentsGo client.getComments
                    client.deleteLink settings.whitelist r.access_token
                    none fuel).1).map Event.join
              ++ ((spawnedIds (deletePostsGo client.getPosts
                      client.deleteLink settings.whitelist r.access_token
                      none fuel).1).map Event.join
                ++ [Event.done])))) := by
  simp [regredditRun, h]

lemma regredditRun_snd_concat (client : ClientModel) (settings : Settings)
    (fuel : Nat) (r : BasicAuthResult)
    (h : client.basicAuth settings.credentials = .ok r) :
    (regredditRun client settings fuel).2
      = (Event.auth true
          :: ((deleteCommentsGo client.getComments client.deleteLink
                settings.whitelist r.access_token none fuel).1
            ++ ((deletePostsGo client.getPosts client.deleteLink
                  settings.whitelist r.access_token none fuel).1
              ++ ((spawnedIds (deleteCommentsGo client.getComments
                      client.deleteLink settings.whitelist r.access_token
                      none fuel).1).map Event.join
                ++ (spawnedIds (deletePostsGo client.getPosts
                      client.deleteLink settings.whitelist r.access_token
                      none fuel).1).map Event.join))))
        ++ [Event.done] := by
  simp [regredditRun, h]

lemma run_spawn_join (client : ClientModel) (settings : Settings)
    (fuel : Nat) (r : BasicAuthResult)
    (h : client.basicAuth settings.credentials = .ok r) :
    ∀ id, Event.spawn id ∈ (regredditRun client settings fuel).2 →
      Event.join id ∈ ((regredditRun client settings fuel).2).dropLast := by
  intro id hsp
  rw [regredditRun_snd client settings fuel r h] at hsp
  rw [regredditRun_snd_concat client settings fuel r h,
    List.dropLast_concat]
  simp only [List.mem_cons, List.mem_append, List.mem_map] at hsp ⊢
  rcases hsp with hsp | hsp | hsp | hsp | hsp | hsp
  · exact absurd hsp (by simp)
  · exact Or.inr (Or.inr (Or.inr (Or.inl
      ⟨id, spawn_mem_iff_spawnedIds.mp hsp, rfl⟩)))
  · exact Or.inr (Or.inr (Or.inr (Or.inr
      ⟨id, spawn_mem_iff_spawnedIds.mp hsp, rfl⟩)))
  · rcases hsp with ⟨a, -, hja⟩
    exact absurd hja (by simp)
  · rcases hsp with ⟨a, -, hja⟩
    exact absurd hja (by simp)
  · exact absurd hsp (by simp)

/-! ### Claim theorems -/

/-- C5: if the authentication step fails, `regreddit` returns that failure
to the caller, and zero listing calls and zero delete calls are made — no
pipeline is ever started. -/
theorem auth_failure_aborts_run (client : ClientModel) (settings : Settings)
    (fuel : Nat) (e : Error)
    (h : client.basicAuth settings.credentials = .error e) :
    (regredditRun client settings fuel).1 = .error e ∧
    ((regredditRun client settings fuel).2).countP Event.isListCall = 0 ∧
    ((regredditRun client settings fuel).2).countP Event.isDeleteCall = 0 := by
  refine ⟨?_, ?_, ?_⟩ <;>
    simp [regredditRun, h, Event.isListCall, Event.isDeleteCall]

/-- Witness for C5 at a concrete failing client. -/
theorem auth_failure_aborts_run_witness :
    (regredditRun authFailClient sampleSettings 3).1
        = .error ⟨.authentication, "bad credentials"⟩ ∧
    ((regredditRun authFailClient sampleSettings 3).2).countP
        Event.isListCall = 0 ∧
    ((regredditRun authFailClient sampleSettings 3).2).countP
        Event.isDeleteCall = 0 :=
  auth_failure_aborts_run authFailClient sampleSettings 3
    ⟨.authentication, "bad credentials"⟩ rfl

/-- C9: every listing request of a purge run — in the posts stream and in
the comments stream alike — carries the fixed username `"trustyhardware"`,
whatever credentials and settings the caller supplied. -/
theorem listing_calls_fixed_username (client : ClientModel)
    (settings : Settings) (fuel : Nat) :
    (∀ p, Event.listComments p ∈ (regredditRun client settings fuel).2 →
        p.username = "trustyhardware") ∧
    (∀ p, Event.listPosts p ∈ (regredditRun client settings fuel).2 →
        p.username = "trustyhardware") := by
  rcases hauth : client.basicAuth settings.credentials with e | r
  · refine ⟨fun p hp => ?_, fun p hp => ?_⟩ <;>
      simp [regredditRun, hauth] at hp
  · refine ⟨fun p hp => ?_, fun p hp => ?_⟩ <;>
      rw [regredditRun_snd client settings fuel r hauth] at hp <;>
      simp at hp
    · rcases hp with hp | hp
      · exact (deleteCommentsGo_listCalls client.getComments
          client.deleteLink settings.whitelist r.access_token fuel none
          _ hp).2 p rfl
      · exact absurd rfl ((deletePostsGo_listCalls client.getPosts
          client.deleteLink settings.whitelist r.access_token fuel none
          _ hp).1 p)
    · rcases hp with hp | hp
      · exact absurd rfl ((deleteCommentsGo_listCalls client.getComments
          client.deleteLink settings.whitelist r.access_token fuel none
          _ hp).1 p)
      · exact (deletePostsGo_listCalls client.getPosts
          client.deleteLink settings.whitelist r.access_token fuel none
          _ hp).2 p rfl

/-- Witness for C9 at a concrete client and settings. -/
theorem listing_calls_fixed_username_witness :
    (cParams "tok" none).username = "trustyhardware" :=
  (listing_calls_fixed_username sampleClient sampleSettings 3).1
    (cParams "tok" none) (by decide)

/-- C6: a purge run never completes while a dispatched deletion handle is
unresolved — the trace ends with the `done` event and every spawned id has
a join event strictly before it. -/
theorem run_drains_all_handles (client : ClientModel) (settings : Settings)
    (fuel : Nat) (r : BasicAuthResult)
    (h : client.basicAuth settings.credentials = .ok r) :
    ((regredditRun client settings fuel).2).getLast? = some Event.done ∧
    ∀ id, Event.spawn id ∈ (regredditRun client settings fuel).2 →
      Event.join id ∈ ((regredditRun client settings fuel).2).dropLast := by
  constructor
  · rw [regredditRun_snd_concat client settings fuel r h]
    exact List.getLast?_concat _
  · exact run_spawn_join client settings fuel r h

/-- Witness for C6 at a concrete client with one spawned deletion per
stream. -/
theorem run_drains_all_handles_witness :
    ((regredditRun sampleClient sampleSettings 3).2).getLast?
        = some Event.done ∧
    Event.join "c2" ∈ ((regredditRun sampleClient sampleSettings 3).2).dropLast :=
  ⟨(run_drains_all_handles sampleClient sampleSettings 3 ⟨"tok"⟩ rfl).1,
   (run_drains_all_handles sampleClient sampleSettings 3 ⟨"tok"⟩ rfl).2
     "c2" (by decide)⟩

/-- C4: delete failures are isolated — replacing the delete endpoint by one
that fails on an arbitrary subset of ids changes nothing observable in the
run except the recorded per-call outcomes (same listing calls, same
dispatches, same joins, same completion), and the run still reports overall
success. -/
theorem delete_failures_isolated (client : ClientModel)
    (dl' : DeleteLinkParams → Except Error DeleteLinkResult)
    (settings : Settings) (fuel : Nat) (r : BasicAuthResult)
    (h : client.basicAuth settings.credentials = .ok r) :
    (regredditRun { client with deleteLink := dl' } settings fuel).1
        = .ok {} ∧
    (regredditRun { client with deleteLink := dl' } settings fuel).2
        = ((regredditRun client settings fuel).2).map (substOutcome dl') := by
  have hc := deleteCommentsGo_substOutcome client.getComments
    client.deleteLink dl' settings.whitelist r.access_token fuel none
  have hq := deletePostsGo_substOutcome client.getPosts
    client.deleteLink dl' settings.whitelist r.access_token fuel none
  constructor
  · exact regredditRun_fst_ok _ settings fuel r h
  · rw [regredditRun_snd { client with deleteLink := dl' }
        settings fuel r h,
      regredditRun_snd client settings fuel r h]
    dsimp only
    rw [hc, hq]
    simp [spawnedIds_map_substOutcome, map_substOutcome_join,
      substOutcome_comp_join, substOutcome]

/-- Witness for C4: a delete endpoint that fails on every id leaves the run
successful and the trace unchanged apart from recorded outcomes. -/
theorem delete_failures_isolated_witness :
    (regredditRun { sampleClient with deleteLink := failDelete }
        sampleSettings 3).1 = .ok {} ∧
    (regredditRun { sampleClient with deleteLink := failDelete }
        sampleSettings 3).2
      = ((regredditRun sampleClient sampleSettings 3).2).map
          (substOutcome failDelete) :=
  delete_failures_isolated sampleClient failDelete sampleSettings 3
    ⟨"tok"⟩ rfl

/-- C7: a malformed (non-`Listing`) page stops only that stream's
pagination — the stream makes that one listing call, logs the anomaly,
dispatches nothing further, and ends with the non-fatal `Ok` outcome — while
the run still completes successfully and already-dispatched deletions are
still joined before `done`. -/
theorem stream_anomaly_nonfatal (client : ClientModel) (settings : Settings)
    (fuel' : Nat) (r : BasicAuthResult)
    (hauth : client.basicAuth settings.credentials = .ok r) :
    (∀ (fuel : Nat) (after : Option String) (obj : Object),
      client.getComments (cParams r.access_token after) = .ok obj →
      obj.isListing = false →
      deleteCommentsGo client.getComments client.deleteLink
          settings.whitelist r.access_token after (fuel + 1)
        = ([.listComments (cParams r.access_token after), .streamAnomaly],
           .ok)) ∧
    (∀ (fuel : Nat) (after : Option String) (obj : Object),
      client.getPosts (pParams r.access_token after) = .ok obj →
      obj.isListing = false →
      deletePostsGo client.getPosts client.deleteLink
          settings.whitelist r.access_token after (fuel + 1)
        = ([.listPosts (pParams r.access_token after), .streamAnomaly],
           .ok)) ∧
    (regredditRun client settings fuel').1 = .ok {} ∧
    ∀ id, Event.spawn id ∈ (regredditRun client settings fuel').2 →
      Event.join id ∈ ((regredditRun client settings fuel').2).dropLast := by
  refine ⟨?_, ?_, regredditRun_fst_ok client settings fuel' r hauth,
    run_spawn_join client settings fuel' r hauth⟩
  · intro fuel after obj hresp hobj
    cases obj with
    | listing mh d a b ch => simp [Object.isListing] at hobj
    | comment lt li nm sub => simp [deleteCommentsGo, hresp]
    | link s t nm => simp [deleteCommentsGo, hresp]
  · intro fuel after obj hresp hobj
    cases obj with
    | listing mh d a b ch => simp [Object.isListing] at hobj
    | comment lt li nm sub => simp [deletePostsGo, hresp]
    | link s t nm => simp [deletePostsGo, hresp]

/-- Witness for C7: a posts stream whose second page is malformed stops
after that page while the run still succeeds. -/
theorem stream_anomaly_nonfatal_witness :
    deletePostsGo anomalyPostsClient.getPosts anomalyPostsClient.deleteLink
        sampleSettings.whitelist "tok" (some "p49") 4
      = ([.listPosts (pParams "tok" (some "p49")), .streamAnomaly],
         .ok) ∧
    (regredditRun anomalyPostsClient sampleSettings 3).1 = .ok {} :=
  ⟨(stream_anomaly_nonfatal anomalyPostsClient sampleSettings 3 ⟨"tok"⟩
      rfl).2.1 3 (some "p49") (.comment "t" "l" "weird" "sub") rfl rfl,
   (stream_anomaly_nonfatal anomalyPostsClient sampleSettings 3 ⟨"tok"⟩
      rfl).2.2.1⟩

/-- C8: an element of a page that does not parse as the stream's item kind
is skipped exactly — in either stream the page's events are those of the
page without it, plus one logged item anomaly in its place — and the run
never fails because of it. -/
theorem item_anomaly_skips_one_element (wl : List String)
    (dl : DeleteLinkParams → Except Error DeleteLinkResult) (tok : String)
    (xs ys : List Object) (c : Object) :
    (c.isComment = false →
      commentsPageEvents wl dl tok (xs ++ c :: ys)
        = commentsPageEvents wl dl tok xs
          ++ Event.itemAnomaly :: commentsPageEvents wl dl tok ys) ∧
    (c.isLink = false →
      postsPageEvents wl dl tok (xs ++ c :: ys)
        = postsPageEvents wl dl tok xs
          ++ Event.itemAnomaly :: postsPageEvents wl dl tok ys) ∧
    (∀ (client : ClientModel) (settings : Settings) (fuel : Nat)
        (r : BasicAuthResult),
      client.basicAuth settings.credentials = .ok r →
      (regredditRun client settings fuel).1 = .ok {}) := by
  refine ⟨fun hc => ?_, fun hc => ?_,
    fun client settings fuel r h => regredditRun_fst_ok client settings
      fuel r h⟩
  · rw [commentsPageEvents_append]
    congr 1
    cases c with
    | comment lt li nm sub => simp [Object.isComment] at hc
    | listing mh d a b ch =>
      simp [commentsPageEvents, commentsChildEvents]
    | link s t nm =>
      simp [commentsPageEvents, commentsChildEvents]
  · rw [postsPageEvents_append]
    congr 1
    cases c with
    | link s t nm => simp [Object.isLink] at hc
    | listing mh d a b ch =>
      simp [postsPageEvents, postsChildEvents]
    | comment lt li nm sub =>
      simp [postsPageEvents, postsChildEvents]

/-- Witness for C8: a `Link` element inside a comments page is skipped and
the rest of the page is processed unchanged. -/
theorem item_anomaly_skips_one_element_witness :
    commentsPageEvents ["keep"] okDelete "tok"
        [Object.comment "t1" "l1" "c1" "aaa",
         Object.link "s" "a post" "x",
         Object.comment "t2" "l2" "c2" "keep"]
      = commentsPageEvents ["keep"] okDelete "tok"
          [Object.comment "t1" "l1" "c1" "aaa"]
        ++ Event.itemAnomaly
          :: commentsPageEvents ["keep"] okDelete "tok"
              [Object.comment "t2" "l2" "c2" "keep"] :=
  (item_anomaly_skips_one_element ["keep"] okDelete "tok"
      [Object.comment "t1" "l1" "c1" "aaa"]
      [Object.comment "t2" "l2" "c2" "keep"]
      (Object.link "s" "a post" "x")).1 rfl

/-- C1: an item produced by either listing stream is dispatched to the
deleter exactly when its subreddit is not in the exemption set; and for an
item whose subreddit is exempt, no delete call is ever made for its id
(ids being unique delete handles, expressed by the `Nodup` hypothesis). -/
theorem exemption_filter_correct (client : ClientModel)
    (settings : Settings) (fuel : Nat) (name : String) :
    (Event.spawn name ∈ (regredditRun client settings fuel).2 ↔
      ∃ sub, Event.item name sub ∈ (regredditRun client settings fuel).2
        ∧ sub ∉ settings.whitelist) ∧
    ((((regredditRun client settings fuel).2).filterMap
        Event.itemName).Nodup →
      ∀ sub, Event.item name sub ∈ (regredditRun client settings fuel).2 →
        sub ∈ settings.whitelist →
        ∀ (q : DeleteLinkParams) (res : Except Error DeleteLinkResult),
          q.id = name →
          Event.deleteCall q res ∉ (regredditRun client settings fuel).2) := by
  rcases hauth : client.basicAuth settings.credentials with e | r
  · constructor
    · simp [regredditRun, hauth]
    · intro _ sub hitem
      simp [regredditRun, hauth] at hitem
  · have hsnd := regredditRun_snd client settings fuel r hauth
    constructor
    · rw [hsnd]
      simp
      rw [deleteCommentsGo_spawn_iff client.getComments client.deleteLink
          settings.whitelist r.access_token fuel none name,
        deletePostsGo_spawn_iff client.getPosts client.deleteLink
          settings.whitelist r.access_token fuel none name]
      constructor
      · rintro (⟨s, hs, hn⟩ | ⟨s, hs, hn⟩)
        exacts [⟨s, Or.inl hs, hn⟩, ⟨s, Or.inr hs, hn⟩]
      · rintro ⟨s, hs | hs, hn⟩
        exacts [Or.inl ⟨s, hs, hn⟩, Or.inr ⟨s, hs, hn⟩]
    · intro hnd sub hitem hsub q res hqid hdel
      have hdel' : Event.deleteCall q res
            ∈ (deleteCommentsGo client.getComments client.deleteLink
                settings.whitelist r.access_token none fuel).1
          ∨ Event.deleteCall q res
            ∈ (deletePostsGo client.getPosts client.deleteLink
                settings.whitelist r.access_token none fuel).1 := by
        rw [hsnd] at hdel
        simpa using hdel
      have hspawn : Event.spawn name
            ∈ (deleteCommentsGo client.getComments client.deleteLink
                settings.whitelist r.access_token none fuel).1
          ∨ Event.spawn name
            ∈ (deletePostsGo client.getPosts client.deleteLink
                settings.whitelist r.access_token none fuel).1 := by
        rcases hdel' with hd | hd
        · exact Or.inl (hqid ▸ deleteCommentsGo_deleteCall_spawn
            client.getComments client.deleteLink settings.whitelist
            r.access_token fuel none q res hd)
        · exact Or.inr (hqid ▸ deletePostsGo_deleteCall_spawn
            client.getPosts client.deleteLink settings.whitelist
            r.access_token fuel none q res hd)
      have hex : ∃ sub',
          (Event.item name sub'
              ∈ (deleteCommentsGo client.getComments client.deleteLink
                  settings.whitelist r.access_token none fuel).1
            ∨ Event.item name sub'
              ∈ (deletePostsGo client.getPosts client.deleteLink
                  settings.whitelist r.access_token none fuel).1)
          ∧ sub' ∉ settings.whitelist := by
        rcases hspawn with hs | hs
        · rcases (deleteCommentsGo_spawn_iff client.getComments
              client.deleteLink settings.whitelist r.access_token fuel
              none name).mp hs with ⟨s, hsm, hn⟩
          exact ⟨s, Or.inl hsm, hn⟩
        · rcases (deletePostsGo_spawn_iff client.getPosts
              client.deleteLink settings.whitelist r.access_token fuel
              none name).mp hs with ⟨s, hsm, hn⟩
          exact ⟨s, Or.inr hsm, hn⟩
      rcases hex with ⟨sub', hmem', hn'⟩
      have h2 : Event.item name sub' ∈ (regredditRun client settings fuel).2 := by
        rw [hsnd]
        simp
        exact hmem'
      have heq : Event.item name sub = Event.item name sub' :=
        filterMap_nodup_inj hnd hitem h2 rfl rfl
      injection heq with h3 h4
      exact hn' (h4 ▸ hsub)

/-- Witness for C1: the exempt comment `c1` (subreddit `keep`) never has a
delete call issued for its id. -/
theorem exemption_filter_correct_witness :
    Event.deleteCall ⟨"tok", "c1"⟩ (Except.ok {})
      ∉ (regredditRun sampleClient sampleSettings 3).2 :=
  (exemption_filter_correct sampleClient sampleSettings 3 "c1").2
    (by decide) "keep" (by decide) (by decide) ⟨"tok", "c1"⟩
    (Except.ok {}) rfl

/-- C2 (failing evaluation): against a comments server whose first page is
full (50 items) and entirely decodable — its last child is the comment
`c49` — the comments loop never issues a second listing call at all: the
cursor check pattern-matches the last child against `Object::Link`, which a
`Comment` never satisfies, so the loop breaks instead of advancing the
cursor to `c49`. -/
theorem comments_cursor_never_advances :
    fullCommentsChildren.length = listingLimit ∧
    fullCommentsChildren.getLast?
        = some (Object.comment "t" "l" "c49" "sub") ∧
    listCommentsCursors
        (deleteCommentsGo twoPageCommentsServer okDelete [] "tok"
          none 5).1
      = [none] := by
  refine ⟨rfl, rfl, rfl⟩

/-- C3 (failing evaluation): with 53 comments served as a full page of 50
followed by a short page of 3, the comments paginator issues exactly one
listing call and yields only the 50 first-page items — not the 2 calls and
53 items the pagination-termination property demands — and ends in the
normal (non-error) outcome. -/
theorem comments_pagination_stops_after_full_page :
    ((deleteCommentsGo twoPageCommentsServer okDelete [] "tok"
        none 5).1).countP Event.isListCall = 1 ∧
    (itemNames (deleteCommentsGo twoPageCommentsServer okDelete [] "tok"
        none 5).1).length = 50 ∧
    (deleteCommentsGo twoPageCommentsServer okDelete [] "tok" none 5).2
      = StreamOutcome.ok := by
  refine ⟨rfl, rfl, rfl⟩

lemma doSubmit_snd (client : ClientModel) (sp : SubmitParams) :
    (doSubmit client sp).2 = [sp] := by
  rw [doSubmit]
  cases client.submit sp <;> rfl

/-- C10 (counterexample): `submit_self_post` authenticates before checking
the body sources, so with failing credentials and zero provided sources it
returns the authentication error, not an `InvalidInput` error, refuting the
claim as stated. -/
theorem submit_self_post_claim_false_at :
    sourceCount noSourceParams ≠ 1 ∧
    (submitSelfPost authFailClient emptyFs noSourceParams).1
      = .error ⟨.authentication, "bad credentials"⟩ ∧
    (⟨.authentication, "bad credentials"⟩ : Error).kind
      ≠ ErrorKind.invalidInput := by
  refine ⟨by decide, rfl, by decide⟩

/-- C10 (amended): provided authentication succeeds, `submit_self_post`
returns the `InvalidInput` error and performs no submit call whenever the
number of provided body sources is not exactly one; and when exactly one
source is provided (and any file read succeeds), exactly one submit call is
made, carrying that source's body. -/
theorem submit_self_post_arity (client : ClientModel)
    (fs : String → Except Error String) (p : SubmitSelfPostParams)
    (r : BasicAuthResult)
    (h : client.basicAuth p.credentials = .ok r) :
    (sourceCount p ≠ 1 →
      (submitSelfPost client fs p).1
          = .error ⟨.invalidInput, "only one input source is accepted"⟩ ∧
      (submitSelfPost client fs p).2 = []) ∧
    (sourceCount p = 1 →
      ∀ b, selfPostBodyOfSources fs p = .ok b →
        (submitSelfPost client fs p).2
          = [⟨r.access_token, .selfPost p.subreddit p.title b⟩]) := by
  obtain ⟨cred, sr, ti, t, tf, rj, rjf⟩ := p
  rcases t with _ | t <;> rcases tf with _ | tf <;>
    rcases rj with _ | rj <;> rcases rjf with _ | rjf <;>
    refine ⟨fun hcount => ?_, fun hcount => ?_⟩ <;>
    first
      | (refine ⟨?_, ?_⟩ <;> (simp [submitSelfPost, h]; done))
      | (exfalso
         revert hcount
         simp [sourceCount]
         done)
      | (intro b hb
         simp only [selfPostBodyOfSources] at hb
         first
           | (rcases hf : fs tf with e | s <;>
                rw [hf] at hb <;> simp [Except.map] at hb <;>
                (subst hb; simp [submitSelfPost, h, hf, doSubmit_snd]))
           | (rcases hf : fs rjf with e | s <;>
                rw [hf] at hb <;> simp [Except.map] at hb <;>
                (subst hb; simp [submitSelfPost, h, hf, doSubmit_snd]))
           | ((try simp at hb)
              subst hb
              simp [submitSelfPost, h, doSubmit_snd]))

/-- Witness for the amended C10: with exactly one provided source (`text`),
one submit call carrying that text body is made. -/
theorem submit_self_post_arity_witness :
    (submitSelfPost sampleClient emptyFs oneSourceParams).2
      = [⟨"tok", .selfPost "rust" "a title" (.text "hello")⟩] :=
  (submit_self_post_arity sampleClient emptyFs oneSourceParams ⟨"tok"⟩
      rfl).2 rfl (.text "hello") rfl

end Regreddit
